import Mathlib

/-!
Verification of the NWWS-OI receiver (bradsjm/nwws-oi-receiver).

The repository ships `src/nwws_receiver/config.py` together with the test
suite, example scripts and packaging helpers; the distribution module
`wx_wire.py` (class WxWire) and the record module `message.py` are not part
of the source tree available here, so those components are modelled from the
specification document (each such definition carries a doc comment starting
with "Modelled from the spec:").  Machine integers do not occur: Python
integers are unbounded, so they are embedded as Nat/Int.  Instants in time
are embedded as integer microseconds since the Unix epoch in UTC.
-/

namespace NwwsReceiver

/-! ## Configuration (embedded from src/nwws_receiver/config.py) -/

/-- Embeds `_validate_port` from config.py: raising `ConfigurationError` is
modelled as returning `Except.error` with the formatted message. -/
def validate_port (port : Int) (field_name : String) : Except String Int :=
  if 1 ≤ port ∧ port ≤ 65535 then Except.ok port
  else Except.error (field_name.capitalize ++ " must be between 1 and 65535, got " ++ toString port)

/-- Embeds `_validate_history` from config.py. -/
def validate_history (history : Int) (field_name : String) : Except String Int :=
  if history < 0 then
    Except.error (field_name.capitalize ++ " must be non-negative, got " ++ toString history)
  else Except.ok history

/-- The validated configuration record (dataclass `WxWireConfig`). -/
structure WxWireConfig where
  username : String
  password : String
  server : String
  port : Int
  history : Int
deriving DecidableEq

/-- Embeds dataclass construction of `WxWireConfig` including
`__post_init__` from config.py: strip credentials when non-empty, default
the server, then validate port and history (in that order); a raised
`ConfigurationError` is the `Except.error` case. -/
def mk_wx_wire_config (username password server : String) (port history : Int) :
    Except String WxWireConfig :=
  let username := if username ≠ "" then username.trim else username
  let password := if password ≠ "" then password.trim else password
  let server0 := if server ≠ "" then server.trim else ""
  let server := if server0 = "" then "nwws-oi.weather.gov" else server0
  match validate_port port "port" with
  | Except.error e => Except.error e
  | Except.ok p =>
    match validate_history history "history" with
    | Except.error e => Except.error e
    | Except.ok h => Except.ok ⟨username, password, server, p, h⟩

/-! ## Message record and client state

`message.py` and `wx_wire.py` are not in the available source tree; the
entities below are modelled from the specification (sections 3, 4.3, 4.4). -/

/-- Modelled from the spec: the canonical Message Record produced by the
normalizer (`NoaaPortMessage` in the missing message.py).  `issue` is the
UTC issuance instant in microseconds since the epoch. -/
structure NoaaPortMessage where
  subject : String
  noaaport : String
  id : String
  issue : Int
  ttaaii : String
  cccc : String
  awipsid : String
  delay_secs : Int
deriving DecidableEq

/-- Modelled from the spec: the mutable state of the WxWire client that the
claims observe (missing wx_wire.py).  The Distribution Core owns one bounded
FIFO queue, one ordered list of subscriber callbacks and one stop flag; the
Connection Supervisor owns the shutting-down flag.  A subscriber callback is
embedded as a function to Bool where the Bool tells whether that invocation
raises (raised callback failures are swallowed).  Counters record how many
times each observable side effect has run: dropped-record warnings and the
three teardown steps of `stop()`. -/
structure WxWireState where
  message_queue : List NoaaPortMessage
  queue_maxsize : Nat
  subscribers : List (NoaaPortMessage → Bool)
  stop_iteration : Bool
  is_shutting_down : Bool
  dropped_warnings : Nat
  bg_services_stops : Nat
  muc_leaves : Nat
  disconnects : Nat

/-- Modelled from the spec: the observable outcome of one pull call
(`__anext__`): an item, the end-of-sequence signal `StopAsyncIteration`,
or suspension while the queue is empty and no stop was requested. -/
inductive PullOutcome where
  | item : NoaaPortMessage → PullOutcome
  | stopAsyncIteration : PullOutcome
  | waiting : PullOutcome
deriving DecidableEq

/-- Modelled from the spec: one evaluation of the pull call `__anext__`.
The stop flag gates every pull call: once set the sequence terminates with
the end-of-sequence signal even with items still queued; otherwise an
available item is returned immediately and an empty queue suspends the
caller.  A `waiting` outcome models the suspension point: the pending call
re-evaluates `anext` when woken. -/
def anext (st : WxWireState) : PullOutcome × WxWireState :=
  if st.stop_iteration then (PullOutcome.stopAsyncIteration, st)
  else
    match st.message_queue with
    | m :: rest => (PullOutcome.item m, { st with message_queue := rest })
    | [] => (PullOutcome.waiting, st)

/-- Modelled from the spec: `stop(reason)`.  Idempotent: while already
shutting down it is a no-op; otherwise it marks the client shutting down,
runs each teardown step (background-service stop, leave-channel, session
disconnect) exactly once, and sets the pull-sequence stop flag. -/
def stop (st : WxWireState) : WxWireState :=
  if st.is_shutting_down then st
  else
    { st with
      is_shutting_down := true
      bg_services_stops := st.bg_services_stops + 1
      muc_leaves := st.muc_leaves + 1
      disconnects := st.disconnects + 1
      stop_iteration := true }

/-- Modelled from the spec: the behaviour of the session-layer
`connect()` collaborator as observed by `start()`: it either returns a
success indicator or raises. -/
inductive ConnectBehavior where
  | returns : Bool → ConnectBehavior
  | raises : String → ConnectBehavior
deriving DecidableEq

/-- Modelled from the spec: `start()` invokes the session-layer
`connect()`; an exception from `connect()` propagates to the caller
(`Except.error`), and a failure indicator returned by `connect()` is
returned by `start()` without raising. -/
def start (st : WxWireState) (connect : ConnectBehavior) : Except String (Bool × WxWireState) :=
  match connect with
  | ConnectBehavior.raises e => Except.error e
  | ConnectBehavior.returns ok => Except.ok (ok, st)

/-- Invoking the subscriber callback at a given registration position; the
Bool result tells whether that invocation raised. -/
def call_subscriber (subs : List (NoaaPortMessage → Bool)) (i : Nat)
    (m : NoaaPortMessage) : Bool :=
  match subs[i]? with
  | some f => f m
  | none => false

/-- Modelled from the spec: the fan-out half of `publish(record)`: every
registered subscriber callback is invoked with the record, in registration
order; an invocation that raises is swallowed and logged.  The returned
event log records, per invocation, the subscriber position, the record it
received and whether the callback raised. -/
def fanout_events (subs : List (NoaaPortMessage → Bool)) (m : NoaaPortMessage) :
    List (Nat × NoaaPortMessage × Bool) :=
  (List.range subs.length).map fun i => (i, m, call_subscriber subs i m)

/-- Modelled from the spec: `publish(record)`: invoke every subscriber
(fan-out events returned alongside the new state), then attempt a
non-blocking enqueue on the bounded queue; on saturation the record is
dropped and a warning is emitted instead. -/
def publish (st : WxWireState) (m : NoaaPortMessage) :
    WxWireState × List (Nat × NoaaPortMessage × Bool) :=
  let events := fanout_events st.subscribers m
  if st.queue_maxsize ≤ st.message_queue.length then
    ({ st with dropped_warnings := st.dropped_warnings + 1 }, events)
  else
    ({ st with message_queue := st.message_queue ++ [m] }, events)

/-- Modelled from the spec: publishing a sequence of records one after the
other, concatenating the fan-out event logs. -/
def publish_seq (st : WxWireState) (ms : List NoaaPortMessage) :
    WxWireState × List (Nat × NoaaPortMessage × Bool) :=
  match ms with
  | [] => (st, [])
  | m :: rest =>
    let step := publish st m
    let next := publish_seq step.1 rest
    (next.1, step.2 ++ next.2)

/-- The records a given subscriber position observed, in order, read off a
fan-out event log. -/
def events_for (i : Nat) (evs : List (Nat × NoaaPortMessage × Bool)) : List NoaaPortMessage :=
  evs.filterMap fun e => if e.1 = i then some e.2.1 else none

/-- Modelled from the spec: `_calculate_delay_secs`, the delivery-delay
metric `max(0, floor((now_utc - issueTime).total_seconds()))`, with both
instants in microseconds since the epoch. -/
def calculate_delay_secs (issue now : Int) : Int :=
  max 0 ((now - issue).fdiv 1000000)

/-! ## Payload normalization (`_convert_to_noaaport`) -/

/-- Modelled from the spec: the line-ending normalization scan inside
`_convert_to_noaaport` (missing wx_wire.py).  The scan walks the raw text
keeping the previous two input characters; a line-feed whose two
predecessors are not both carriage-returns (i.e. one that is not already
the final byte of an existing carriage-return, carriage-return, line-feed
triple) is replaced by the full triple; every other character is copied
unchanged. -/
def noaaport_body : Option Char → Option Char → List Char → List Char
  | _, _, [] => []
  | p2, p1, c :: rest =>
    if c = '\n' ∧ ¬(p2 = some '\r' ∧ p1 = some '\r') then
      '\r' :: '\r' :: '\n' :: noaaport_body p1 (some c) rest
    else
      c :: noaaport_body p1 (some c) rest

/-- Modelled from the spec: `_convert_to_noaaport`: prefix one
start-of-text byte, suffix one end-of-text byte around the normalized
body. -/
def convert_to_noaaport (text : List Char) : List Char :=
  '\x01' :: (noaaport_body none none text ++ ['\x03'])

/-- The declarative, position-indexed description of the line-feed
replacement: position `j` of the input contributes the full triple when it
holds a line-feed not already preceded by two carriage-returns, and its own
character otherwise. -/
def lf_step (t : List Char) (j : Nat) : List Char :=
  if t[j]? = some '\n' ∧
      ¬(2 ≤ j ∧ t[j - 2]? = some '\r' ∧ t[j - 1]? = some '\r') then
    ['\r', '\r', '\n']
  else (t[j]?).toList

/-- The declarative normalized body: concatenation of the per-position
contributions. -/
def lf_spec (t : List Char) : List Char :=
  (List.range t.length).flatMap (lf_step t)

/-- The last character of a scanned context, if any. -/
def last1 (ctx : List Char) : Option Char := ctx[ctx.length - 1]?

/-- The second-to-last character of a scanned context, if any. -/
def last2 (ctx : List Char) : Option Char :=
  if ctx.length ≤ 1 then none else ctx[ctx.length - 2]?

/-- A string begins with exactly one start-of-text byte: the first byte is
`\x01` and the second is not. -/
def begins_with_exactly_one_soh (l : List Char) : Prop :=
  l[0]? = some '\x01' ∧ l[1]? ≠ some '\x01'

/-! ## Issue-timestamp parsing (`_parse_issue_timestamp`)

Modelled from the spec: the parser accepts ISO-8601 timestamps of the form
`YYYY-MM-DDTHH:MM:SS`, followed by an optional fraction of exactly 3 or 6
digits, followed by a timezone designator that is either `Z` or an explicit
`+HH:MM`/`-HH:MM` offset; a valid timestamp denotes the exact UTC instant
(embedded as microseconds since the Unix epoch), while every other string —
empty, malformed, out-of-range components, missing designator — falls back
to the current ingestion time without raising. -/

/-- The decimal digit character for a value below ten. -/
def digitChar : Nat → Char
  | 0 => '0'
  | 1 => '1'
  | 2 => '2'
  | 3 => '3'
  | 4 => '4'
  | 5 => '5'
  | 6 => '6'
  | 7 => '7'
  | 8 => '8'
  | 9 => '9'
  | _ => '*'

/-- Reads one decimal digit character. -/
def digit? (c : Char) : Option Nat :=
  if 48 ≤ c.toNat ∧ c.toNat ≤ 57 then some (c.toNat - 48) else none

/-- Two fixed decimal digits of a value below one hundred. -/
def two_digits (n : Nat) : List Char :=
  [digitChar (n / 10), digitChar (n % 10)]

/-- Three fixed decimal digits of a value below one thousand. -/
def three_digits (n : Nat) : List Char :=
  [digitChar (n / 100), digitChar (n / 10 % 10), digitChar (n % 10)]

/-- Four fixed decimal digits of a value below ten thousand. -/
def four_digits (n : Nat) : List Char :=
  [digitChar (n / 1000), digitChar (n / 100 % 10), digitChar (n / 10 % 10), digitChar (n % 10)]

/-- Reads a two-digit decimal number. -/
def parse2 (c1 c2 : Char) : Option Nat := do
  let a ← digit? c1
  let b ← digit? c2
  some (10 * a + b)

/-- Reads a three-digit decimal number. -/
def parse3 (c1 c2 c3 : Char) : Option Nat := do
  let a ← digit? c1
  let b ← digit? c2
  let c ← digit? c3
  some (100 * a + 10 * b + c)

/-- Reads a four-digit decimal number. -/
def parse4 (c1 c2 c3 c4 : Char) : Option Nat := do
  let a ← digit? c1
  let b ← digit? c2
  let c ← digit? c3
  let d ← digit? c4
  some (1000 * a + 100 * b + 10 * c + d)

/-- The fractional-seconds part of a timestamp: absent, exactly three
digits (milliseconds) or exactly six digits (microseconds). -/
inductive FracSpec where
  | noFrac : FracSpec
  | milli : Nat → FracSpec
  | micro : Nat → FracSpec
deriving DecidableEq

/-- The timezone designator: `Z` or an explicit `+HH:MM`/`-HH:MM`
offset. -/
inductive TzSpec where
  | zulu : TzSpec
  | plus : Nat → Nat → TzSpec
  | minus : Nat → Nat → TzSpec
deriving DecidableEq

/-- The components of an ISO-8601 timestamp in the accepted grammar. -/
structure TsFields where
  year : Nat
  month : Nat
  day : Nat
  hour : Nat
  minute : Nat
  second : Nat
  frac : FracSpec
  tz : TzSpec
deriving DecidableEq

/-- Renders the fractional-seconds part. -/
def render_frac : FracSpec → List Char
  | FracSpec.noFrac => []
  | FracSpec.milli n => '.' :: three_digits n
  | FracSpec.micro n => '.' :: (three_digits (n / 1000) ++ three_digits (n % 1000))

/-- Renders the timezone designator. -/
def render_tz : TzSpec → List Char
  | TzSpec.zulu => ['Z']
  | TzSpec.plus hh mm => '+' :: (two_digits hh ++ ':' :: two_digits mm)
  | TzSpec.minus hh mm => '-' :: (two_digits hh ++ ':' :: two_digits mm)

/-- Renders the full timestamp in the accepted grammar. -/
def render_iso (f : TsFields) : List Char :=
  four_digits f.year ++ '-' :: (two_digits f.month ++ '-' :: (two_digits f.day
    ++ 'T' :: (two_digits f.hour ++ ':' :: (two_digits f.minute ++ ':' :: (two_digits f.second
    ++ render_frac f.frac ++ render_tz f.tz)))))

/-- Reads the timezone designator, which must end the string. -/
def parse_tz : List Char → Option TzSpec
  | [c] => if c = 'Z' then some TzSpec.zulu else none
  | s :: h1 :: h2 :: c :: m1 :: m2 :: [] =>
    if c = ':' then
      if s = '+' then
        (match parse2 h1 h2, parse2 m1 m2 with
         | some hh, some mm => some (TzSpec.plus hh mm)
         | _, _ => none)
      else if s = '-' then
        (match parse2 h1 h2, parse2 m1 m2 with
         | some hh, some mm => some (TzSpec.minus hh mm)
         | _, _ => none)
      else none
    else none
  | _ => none

/-- Reads a string with no leading fraction dot: only a bare timezone
designator is accepted. -/
def no_frac_path (l : List Char) : Option (FracSpec × TzSpec) :=
  match parse_tz l with
  | some tz => some (FracSpec.noFrac, tz)
  | none => none

/-- Reads the optional fraction (exactly 3 or exactly 6 digits after the
dot) followed by the timezone designator. -/
def parse_frac_tz (l : List Char) : Option (FracSpec × TzSpec) :=
  match l with
  | dot :: a :: b :: c :: rest =>
    if dot = '.' then
      (match parse3 a b c with
       | none => none
       | some n3 =>
         match rest with
         | d :: e :: f :: rest2 =>
           (match digit? d with
            | some _ =>
              (match parse3 d e f, parse_tz rest2 with
               | some n6, some tz => some (FracSpec.micro (n3 * 1000 + n6), tz)
               | _, _ => none)
            | none =>
              (match parse_tz (d :: e :: f :: rest2) with
               | some tz => some (FracSpec.milli n3, tz)
               | none => none))
         | _ =>
           (match parse_tz rest with
            | some tz => some (FracSpec.milli n3, tz)
            | none => none))
    else no_frac_path l
  | _ => no_frac_path l

/-- Reads the rigid `YYYY-MM-DDTHH:MM:SS` core followed by the fraction
and designator. -/
def parse_fields (l : List Char) : Option TsFields :=
  match l with
  | y1 :: y2 :: y3 :: y4 :: sep1 :: m1 :: m2 :: sep2 :: d1 :: d2 :: sepT ::
      h1 :: h2 :: col1 :: n1 :: n2 :: col2 :: s1 :: s2 :: rest =>
    if sep1 = '-' ∧ sep2 = '-' ∧ sepT = 'T' ∧ col1 = ':' ∧ col2 = ':' then
      (match parse4 y1 y2 y3 y4, parse2 m1 m2, parse2 d1 d2, parse2 h1 h2,
          parse2 n1 n2, parse2 s1 s2, parse_frac_tz rest with
       | some y, some mo, some d, some h, some mi, some s, some (fr, tz) =>
         some ⟨y, mo, d, h, mi, s, fr, tz⟩
       | _, _, _, _, _, _, _ => none)
    else none
  | _ => none

/-- Gregorian leap-year rule. -/
def is_leap_year (y : Nat) : Bool :=
  (y % 4 == 0 && y % 100 != 0) || (y % 400 == 0)

/-- Days in a month of the proleptic Gregorian calendar. -/
def days_in_month (y m : Nat) : Nat :=
  match m with
  | 2 => if is_leap_year y then 29 else 28
  | 4 => 30
  | 6 => 30
  | 9 => 30
  | 11 => 30
  | _ => 31

/-- The sub-second part in microseconds. -/
def frac_micros : FracSpec → Nat
  | FracSpec.noFrac => 0
  | FracSpec.milli n => n * 1000
  | FracSpec.micro n => n

/-- Range validity of the fractional part. -/
def frac_ok : FracSpec → Bool
  | FracSpec.noFrac => true
  | FracSpec.milli n => decide (n < 1000)
  | FracSpec.micro n => decide (n < 1000000)

/-- Range validity of the timezone designator (offsets within one day, as
accepted by the datetime library). -/
def tz_ok : TzSpec → Bool
  | TzSpec.zulu => true
  | TzSpec.plus hh mm => decide (hh ≤ 23 ∧ mm ≤ 59)
  | TzSpec.minus hh mm => decide (hh ≤ 23 ∧ mm ≤ 59)

/-- The timezone offset in seconds east of UTC. -/
def tz_offset_secs : TzSpec → Int
  | TzSpec.zulu => 0
  | TzSpec.plus hh mm => (hh : Int) * 3600 + (mm : Int) * 60
  | TzSpec.minus hh mm => -((hh : Int) * 3600 + (mm : Int) * 60)

/-- Component-range validity of a parsed timestamp, matching the datetime
library's constructor ranges (years 1..9999, real calendar dates, hours,
minutes and seconds in range, bounded fraction and offset). -/
def fields_valid (f : TsFields) : Bool :=
  decide (1 ≤ f.year ∧ f.year ≤ 9999 ∧ 1 ≤ f.month ∧ f.month ≤ 12 ∧ 1 ≤ f.day)
    && decide (f.day ≤ days_in_month f.year f.month)
    && decide (f.hour ≤ 23 ∧ f.minute ≤ 59 ∧ f.second ≤ 59)
    && frac_ok f.frac && tz_ok f.tz

/-- Days from the Unix epoch to a proleptic-Gregorian civil date
(standard era-based conversion). -/
def days_from_civil (y m d : Nat) : Int :=
  let yy : Int := (y : Int) - (if m ≤ 2 then 1 else 0)
  let era : Int := (if 0 ≤ yy then yy else yy - 399) / 400
  let yoe : Int := yy - era * 400
  let mp : Int := ((m : Int) + 9) % 12
  let doy : Int := (153 * mp + 2) / 5 + (d : Int) - 1
  let doe : Int := yoe * 365 + yoe / 4 - yoe / 100 + doy
  era * 146097 + doe - 719468

/-- The exact UTC instant denoted by a timestamp, in microseconds since
the epoch: the civil clock reading minus the designated offset. -/
def utc_micros (f : TsFields) : Int :=
  (days_from_civil f.year f.month f.day * 86400
    + (f.hour : Int) * 3600 + (f.minute : Int) * 60 + (f.second : Int)
    - tz_offset_secs f.tz) * 1000000 + (frac_micros f.frac : Int)

/-- Modelled from the spec: `_parse_issue_timestamp` (missing wx_wire.py):
a valid ISO-8601 timestamp yields the exact UTC instant it denotes; every
other string yields the current ingestion time `now` without raising. -/
def parse_issue_timestamp (l : List Char) (now : Int) : Int :=
  match parse_fields l with
  | some f => if fields_valid f then utc_micros f else now
  | none => now

/-! ## Helper lemmas about publish -/

theorem publish_queue_maxsize (st : WxWireState) (m : NoaaPortMessage) :
    (publish st m).1.queue_maxsize = st.queue_maxsize := by
  unfold publish; dsimp only; split <;> rfl

theorem publish_subscribers (st : WxWireState) (m : NoaaPortMessage) :
    (publish st m).1.subscribers = st.subscribers := by
  unfold publish; dsimp only; split <;> rfl

theorem publish_events (st : WxWireState) (m : NoaaPortMessage) :
    (publish st m).2 = fanout_events st.subscribers m := by
  unfold publish; dsimp only; split <;> rfl

theorem publish_queue_len (st : WxWireState) (m : NoaaPortMessage)
    (h : st.message_queue.length ≤ st.queue_maxsize) :
    (publish st m).1.message_queue.length ≤ st.queue_maxsize := by
  unfold publish; dsimp only; split
  · exact h
  · next hfull =>
    simp only [List.length_append, List.length_cons, List.length_nil]
    omega

theorem publish_seq_bound : ∀ (ms : List NoaaPortMessage) (st : WxWireState),
    st.message_queue.length ≤ st.queue_maxsize →
    (publish_seq st ms).1.message_queue.length ≤ (publish_seq st ms).1.queue_maxsize ∧
    (publish_seq st ms).1.queue_maxsize = st.queue_maxsize := by
  intro ms
  induction ms with
  | nil => intro st h; exact ⟨h, rfl⟩
  | cons m rest ih =>
    intro st h
    have h1 := publish_queue_len st m h
    have h2 := publish_queue_maxsize st m
    have h3 : (publish st m).1.message_queue.length ≤ (publish st m).1.queue_maxsize := by
      rw [h2]; exact h1
    have ih2 := ih (publish st m).1 h3
    unfold publish_seq; dsimp only
    exact ⟨ih2.1, by rw [ih2.2, h2]⟩

theorem publish_seq_events (st : WxWireState) (m : NoaaPortMessage)
    (rest : List NoaaPortMessage) :
    (publish_seq st (m :: rest)).2 =
      fanout_events st.subscribers m ++ (publish_seq (publish st m).1 rest).2 := by
  conv_lhs => rw [publish_seq]
  rw [publish_events]

/-! ## Helper lemmas about fan-out order -/

theorem range_filterMap_single {α : Type} (x : α) :
    ∀ (K i : Nat), i < K →
      (List.range K).filterMap (fun j => if j = i then some x else none) = [x] := by
  intro K
  induction K with
  | zero => intro i h; omega
  | succ K ih =>
    intro i h
    rw [List.range_succ, List.filterMap_append]
    by_cases hi : i < K
    · rw [ih i hi]
      have : K ≠ i := by omega
      simp [this]
    · have hik : i = K := by omega
      subst hik
      have hnil : (List.range i).filterMap (fun j => if j = i then some x else none) = [] := by
        rw [List.filterMap_eq_nil_iff]
        intro a ha
        have : a < i := List.mem_range.mp ha
        simp [Nat.ne_of_lt this]
      rw [hnil]
      simp

theorem events_for_fanout (subs : List (NoaaPortMessage → Bool)) (m : NoaaPortMessage)
    (i : Nat) (h : i < subs.length) :
    events_for i (fanout_events subs m) = [m] := by
  unfold events_for fanout_events
  rw [List.filterMap_map]
  have hfun : ((fun e : Nat × NoaaPortMessage × Bool =>
        if e.1 = i then some e.2.1 else none) ∘
      (fun j => (j, m, call_subscriber subs j m))) =
      fun j => if j = i then some m else none := by
    funext j
    by_cases hj : j = i <;> simp [hj]
  rw [hfun]
  exact range_filterMap_single m _ i h

/-! ## Helper lemmas about payload normalization -/

theorem last1_append_singleton (ctx : List Char) (c : Char) :
    last1 (ctx ++ [c]) = some c := by
  unfold last1
  rw [List.length_append]
  simp only [List.length_cons, List.length_nil, Nat.zero_add, Nat.add_sub_cancel]
  rw [List.getElem?_append_right (le_refl _)]
  simp

theorem last2_append_singleton (ctx : List Char) (c : Char) :
    last2 (ctx ++ [c]) = last1 ctx := by
  unfold last2 last1
  rw [List.length_append]
  simp only [List.length_cons, List.length_nil, Nat.zero_add]
  by_cases h0 : ctx.length = 0
  · have hnil : ctx = [] := List.eq_nil_of_length_eq_zero h0
    subst hnil
    rfl
  · rw [if_neg (by omega)]
    rw [show ctx.length + 1 - 2 = ctx.length - 1 by omega]
    rw [List.getElem?_append_left (by omega)]

theorem getElem_append_mid (ctx rest : List Char) (c : Char) :
    (ctx ++ c :: rest)[ctx.length]? = some c := by
  rw [List.getElem?_append_right (le_refl _)]
  simp

theorem lf_cond_iff (ctx rest : List Char) (c : Char) :
    (c = '\n' ∧ ¬(last2 ctx = some '\r' ∧ last1 ctx = some '\r')) ↔
      ((ctx ++ c :: rest)[ctx.length]? = some '\n' ∧
        ¬(2 ≤ ctx.length ∧ (ctx ++ c :: rest)[ctx.length - 2]? = some '\r' ∧
          (ctx ++ c :: rest)[ctx.length - 1]? = some '\r')) := by
  rw [getElem_append_mid, Option.some_inj]
  have hinner : (last2 ctx = some '\r' ∧ last1 ctx = some '\r') ↔
      (2 ≤ ctx.length ∧ (ctx ++ c :: rest)[ctx.length - 2]? = some '\r' ∧
        (ctx ++ c :: rest)[ctx.length - 1]? = some '\r') := by
    by_cases hl : 2 ≤ ctx.length
    · rw [List.getElem?_append_left (show ctx.length - 2 < ctx.length by omega)]
      rw [List.getElem?_append_left (show ctx.length - 1 < ctx.length by omega)]
      unfold last2 last1
      rw [if_neg (by omega)]
      simp [hl]
    · unfold last2
      rw [if_pos (by omega)]
      simp [hl]
  rw [hinner]

theorem noaaport_body_spec : ∀ (s ctx : List Char),
    noaaport_body (last2 ctx) (last1 ctx) s =
      (List.range s.length).flatMap (fun i => lf_step (ctx ++ s) (ctx.length + i)) := by
  intro s
  induction s with
  | nil => intro ctx; rfl
  | cons c rest ih =>
    intro ctx
    rw [show (c :: rest).length = rest.length + 1 from rfl, List.range_succ_eq_map,
      List.flatMap_cons, List.flatMap_map]
    have htail : ((List.range rest.length).flatMap
          fun a => lf_step (ctx ++ c :: rest) (ctx.length + Nat.succ a)) =
        (List.range rest.length).flatMap
          fun i => lf_step ((ctx ++ [c]) ++ rest) ((ctx ++ [c]).length + i) := by
      congr 1
      funext a
      congr 1
      · rw [List.append_assoc]
        rfl
      · rw [List.length_append]
        simp only [List.length_cons, List.length_nil, Nat.zero_add]
        omega
    rw [htail]
    have hstep : noaaport_body (last1 ctx) (some c) rest =
        (List.range rest.length).flatMap
          fun i => lf_step ((ctx ++ [c]) ++ rest) ((ctx ++ [c]).length + i) := by
      rw [← last2_append_singleton ctx c, ← last1_append_singleton ctx c]
      exact ih (ctx ++ [c])
    simp only [noaaport_body]
    by_cases hC : c = '\n' ∧ ¬(last2 ctx = some '\r' ∧ last1 ctx = some '\r')
    · rw [if_pos hC, hstep]
      have hC2 := (lf_cond_iff ctx rest c).mp hC
      unfold lf_step
      rw [Nat.add_zero, if_pos hC2]
      rfl
    · rw [if_neg hC, hstep]
      have hC2 := (lf_cond_iff ctx rest c).not.mp hC
      unfold lf_step
      rw [Nat.add_zero, if_neg hC2, getElem_append_mid]
      rfl

/-! ## Helper lemmas about timestamp parsing -/

theorem digit_roundtrip (k : Nat) (h : k < 10) : digit? (digitChar k) = some k := by
  interval_cases k <;> decide

theorem digitChar_eq_ofNat (k : Nat) (h : k < 10) : digitChar k = Char.ofNat (48 + k) := by
  interval_cases k <;> decide

theorem digit?_some {c : Char} {k : Nat} (h : digit? c = some k) :
    k < 10 ∧ c = digitChar k := by
  unfold digit? at h
  split at h
  · next hc =>
    have hk : k = c.toNat - 48 := (Option.some_inj.mp h).symm
    have hk10 : k < 10 := by omega
    refine ⟨hk10, ?_⟩
    rw [digitChar_eq_ofNat k hk10, show 48 + k = c.toNat by omega, Char.ofNat_toNat]
  · cases h

theorem parse2_round (n : Nat) (h : n < 100) :
    parse2 (digitChar (n / 10)) (digitChar (n % 10)) = some n := by
  unfold parse2
  rw [digit_roundtrip _ (by omega), digit_roundtrip _ (by omega)]
  show some (10 * (n / 10) + n % 10) = some n
  rw [show 10 * (n / 10) + n % 10 = n by omega]

theorem parse3_round (n : Nat) (h : n < 1000) :
    parse3 (digitChar (n / 100)) (digitChar (n / 10 % 10)) (digitChar (n % 10)) = some n := by
  unfold parse3
  rw [digit_roundtrip _ (by omega), digit_roundtrip _ (by omega), digit_roundtrip _ (by omega)]
  show some (100 * (n / 100) + 10 * (n / 10 % 10) + n % 10) = some n
  rw [show 100 * (n / 100) + 10 * (n / 10 % 10) + n % 10 = n by omega]

theorem parse4_round (n : Nat) (h : n < 10000) :
    parse4 (digitChar (n / 1000)) (digitChar (n / 100 % 10)) (digitChar (n / 10 % 10))
      (digitChar (n % 10)) = some n := by
  unfold parse4
  rw [digit_roundtrip _ (by omega), digit_roundtrip _ (by omega), digit_roundtrip _ (by omega),
    digit_roundtrip _ (by omega)]
  show some (1000 * (n / 1000) + 100 * (n / 100 % 10) + 10 * (n / 10 % 10) + n % 10) = some n
  rw [show 1000 * (n / 1000) + 100 * (n / 100 % 10) + 10 * (n / 10 % 10) + n % 10 = n by omega]

theorem parse2_some {c1 c2 : Char} {n : Nat} (h : parse2 c1 c2 = some n) :
    n < 100 ∧ c1 = digitChar (n / 10) ∧ c2 = digitChar (n % 10) := by
  unfold parse2 at h
  obtain ⟨a, ha, h⟩ := Option.bind_eq_some.mp h
  obtain ⟨b, hb, h⟩ := Option.bind_eq_some.mp h
  obtain ⟨ha1, ha2⟩ := digit?_some ha
  obtain ⟨hb1, hb2⟩ := digit?_some hb
  have hn : n = 10 * a + b := (Option.some_inj.mp h).symm
  subst hn
  refine ⟨by omega, ?_, ?_⟩
  · rw [ha2]; congr 1; omega
  · rw [hb2]; congr 1; omega

theorem parse3_some {c1 c2 c3 : Char} {n : Nat} (h : parse3 c1 c2 c3 = some n) :
    n < 1000 ∧ c1 = digitChar (n / 100) ∧ c2 = digitChar (n / 10 % 10) ∧
      c3 = digitChar (n % 10) := by
  unfold parse3 at h
  obtain ⟨a, ha, h⟩ := Option.bind_eq_some.mp h
  obtain ⟨b, hb, h⟩ := Option.bind_eq_some.mp h
  obtain ⟨c, hc, h⟩ := Option.bind_eq_some.mp h
  obtain ⟨ha1, ha2⟩ := digit?_some ha
  obtain ⟨hb1, hb2⟩ := digit?_some hb
  obtain ⟨hc1, hc2⟩ := digit?_some hc
  have hn : n = 100 * a + 10 * b + c := (Option.some_inj.mp h).symm
  subst hn
  refine ⟨by omega, ?_, ?_, ?_⟩
  · rw [ha2]; congr 1; omega
  · rw [hb2]; congr 1; omega
  · rw [hc2]; congr 1; omega

theorem parse4_some {c1 c2 c3 c4 : Char} {n : Nat} (h : parse4 c1 c2 c3 c4 = some n) :
    n < 10000 ∧ c1 = digitChar (n / 1000) ∧ c2 = digitChar (n / 100 % 10) ∧
      c3 = digitChar (n / 10 % 10) ∧ c4 = digitChar (n % 10) := by
  unfold parse4 at h
  obtain ⟨a, ha, h⟩ := Option.bind_eq_some.mp h
  obtain ⟨b, hb, h⟩ := Option.bind_eq_some.mp h
  obtain ⟨c, hc, h⟩ := Option.bind_eq_some.mp h
  obtain ⟨d, hd, h⟩ := Option.bind_eq_some.mp h
  obtain ⟨ha1, ha2⟩ := digit?_some ha
  obtain ⟨hb1, hb2⟩ := digit?_some hb
  obtain ⟨hc1, hc2⟩ := digit?_some hc
  obtain ⟨hd1, hd2⟩ := digit?_some hd
  have hn : n = 1000 * a + 100 * b + 10 * c + d := (Option.some_inj.mp h).symm
  subst hn
  refine ⟨by omega, ?_, ?_, ?_, ?_⟩
  · rw [ha2]; congr 1; omega
  · rw [hb2]; congr 1; omega
  · rw [hc2]; congr 1; omega
  · rw [hd2]; congr 1; omega

theorem parse_tz_round (tz : TzSpec) (h : tz_ok tz = true) :
    parse_tz (render_tz tz) = some tz := by
  cases tz with
  | zulu => rfl
  | plus hh mm =>
    have hb : hh < 100 ∧ mm < 100 := by
      unfold tz_ok at h
      simp only [decide_eq_true_eq] at h
      omega
    unfold render_tz two_digits
    simp only [List.cons_append, List.nil_append, parse_tz, if_true]
    rw [parse2_round hh hb.1, parse2_round mm hb.2]
  | minus hh mm =>
    have hb : hh < 100 ∧ mm < 100 := by
      unfold tz_ok at h
      simp only [decide_eq_true_eq] at h
      omega
    unfold render_tz two_digits
    simp only [List.cons_append, List.nil_append, parse_tz, if_true]
    rw [if_neg (by decide), parse2_round hh hb.1, parse2_round mm hb.2]

theorem parse_tz_some {l : List Char} {tz : TzSpec} (h : parse_tz l = some tz) :
    l = render_tz tz := by
  unfold parse_tz at h
  split at h
  · next c =>
    split at h
    · next hc =>
      subst hc
      cases h
      rfl
    · cases h
  · next s c1 c2 c m1 m2 =>
    split at h
    · next hc =>
      subst hc
      split at h
      · next hs =>
        subst hs
        split at h
        · next hhv mmv heq1 heq2 =>
          cases h
          obtain ⟨hb1, hc1, hc2⟩ := parse2_some heq1
          obtain ⟨hb2, hm1, hm2⟩ := parse2_some heq2
          subst hc1; subst hc2; subst hm1; subst hm2
          rfl
        · cases h
      · next hs =>
        split at h
        · next hs2 =>
          subst hs2
          split at h
          · next hhv mmv heq1 heq2 =>
            cases h
            obtain ⟨hb1, hc1, hc2⟩ := parse2_some heq1
            obtain ⟨hb2, hm1, hm2⟩ := parse2_some heq2
            subst hc1; subst hc2; subst hm1; subst hm2
            rfl
          · cases h
        · cases h
    · cases h
  · cases h

theorem no_frac_path_some {l : List Char} {fr : FracSpec} {tz : TzSpec}
    (h : no_frac_path l = some (fr, tz)) :
    fr = FracSpec.noFrac ∧ l = render_tz tz := by
  unfold no_frac_path at h
  split at h
  · next tz2 heq =>
    cases h
    exact ⟨rfl, parse_tz_some heq⟩
  · cases h

theorem no_frac_path_round (tz : TzSpec) (ht : tz_ok tz = true) :
    no_frac_path (render_tz tz) = some (FracSpec.noFrac, tz) := by
  unfold no_frac_path
  rw [parse_tz_round tz ht]

theorem parse_frac_tz_round (fr : FracSpec) (tz : TzSpec)
    (hf : frac_ok fr = true) (ht : tz_ok tz = true) :
    parse_frac_tz (render_frac fr ++ render_tz tz) = some (fr, tz) := by
  cases fr with
  | noFrac =>
    simp only [render_frac, List.nil_append]
    cases tz with
    | zulu => decide
    | plus hh mm =>
      have hz := no_frac_path_round (TzSpec.plus hh mm) ht
      unfold render_tz two_digits at hz ⊢
      simp only [List.cons_append, List.nil_append] at hz ⊢
      simp only [parse_frac_tz]
      rw [if_neg (by decide)]
      exact hz
    | minus hh mm =>
      have hz := no_frac_path_round (TzSpec.minus hh mm) ht
      unfold render_tz two_digits at hz ⊢
      simp only [List.cons_append, List.nil_append] at hz ⊢
      simp only [parse_frac_tz]
      rw [if_neg (by decide)]
      exact hz
  | milli n =>
    have hn : n < 1000 := by
      unfold frac_ok at hf
      simpa using hf
    cases tz with
    | zulu =>
      unfold render_frac three_digits render_tz
      simp only [List.cons_append, List.nil_append, parse_frac_tz, if_true]
      rw [parse3_round n hn]
      rfl
    | plus hh mm =>
      have hz := parse_tz_round (TzSpec.plus hh mm) ht
      unfold render_tz two_digits at hz
      simp only [List.cons_append, List.nil_append] at hz
      unfold render_frac three_digits render_tz two_digits
      simp only [List.cons_append, List.nil_append, parse_frac_tz, if_true]
      rw [parse3_round n hn, hz]
      rfl
    | minus hh mm =>
      have hz := parse_tz_round (TzSpec.minus hh mm) ht
      unfold render_tz two_digits at hz
      simp only [List.cons_append, List.nil_append] at hz
      unfold render_frac three_digits render_tz two_digits
      simp only [List.cons_append, List.nil_append, parse_frac_tz, if_true]
      rw [parse3_round n hn, hz]
      rfl
  | micro n =>
    have hn : n < 1000000 := by
      unfold frac_ok at hf
      simpa using hf
    have h3a : n / 1000 < 1000 := by omega
    have h3b : n % 1000 < 1000 := by omega
    cases tz with
    | zulu =>
      unfold render_frac three_digits render_tz
      simp only [List.cons_append, List.nil_append, parse_frac_tz, if_true]
      rw [parse3_round (n / 1000) h3a, digit_roundtrip (n % 1000 / 100) (by omega),
        parse3_round (n % 1000) h3b]
      show some (FracSpec.micro (n / 1000 * 1000 + n % 1000), TzSpec.zulu) =
        some (FracSpec.micro n, TzSpec.zulu)
      rw [show n / 1000 * 1000 + n % 1000 = n by omega]
    | plus hh mm =>
      have hz := parse_tz_round (TzSpec.plus hh mm) ht
      unfold render_tz two_digits at hz
      simp only [List.cons_append, List.nil_append] at hz
      unfold render_frac three_digits render_tz two_digits
      simp only [List.cons_append, List.nil_append, parse_frac_tz, if_true]
      rw [parse3_round (n / 1000) h3a, digit_roundtrip (n % 1000 / 100) (by omega),
        parse3_round (n % 1000) h3b, hz]
      show some (FracSpec.micro (n / 1000 * 1000 + n % 1000), TzSpec.plus hh mm) =
        some (FracSpec.micro n, TzSpec.plus hh mm)
      rw [show n / 1000 * 1000 + n % 1000 = n by omega]
    | minus hh mm =>
      have hz := parse_tz_round (TzSpec.minus hh mm) ht
      unfold render_tz two_digits at hz
      simp only [List.cons_append, List.nil_append] at hz
      unfold render_frac three_digits render_tz two_digits
      simp only [List.cons_append, List.nil_append, parse_frac_tz, if_true]
      rw [parse3_round (n / 1000) h3a, digit_roundtrip (n % 1000 / 100) (by omega),
        parse3_round (n % 1000) h3b, hz]
      show some (FracSpec.micro (n / 1000 * 1000 + n % 1000), TzSpec.minus hh mm) =
        some (FracSpec.micro n, TzSpec.minus hh mm)
      rw [show n / 1000 * 1000 + n % 1000 = n by omega]

theorem parse_frac_tz_some {l : List Char} {fr : FracSpec} {tz : TzSpec}
    (h : parse_frac_tz l = some (fr, tz)) :
    l = render_frac fr ++ render_tz tz := by
  unfold parse_frac_tz at h
  split at h
  · next dot a b c rest =>
    split at h
    · next hdot =>
      subst hdot
      split at h
      · cases h
      · next n3 heq3 =>
        obtain ⟨hn3, ha, hb, hc⟩ := parse3_some heq3
        split at h
        · next d e f rest2 =>
          split at h
          · next k heqd =>
            split at h
            · next n6 tz2 heq6 heqtz =>
              obtain ⟨heq, rfl⟩ : FracSpec.micro (n3 * 1000 + n6) = fr ∧ tz2 = tz := by
                cases h
                exact ⟨rfl, rfl⟩
              subst heq
              obtain ⟨hn6, hd, he, hf2⟩ := parse3_some heq6
              have hrest := parse_tz_some heqtz
              subst ha; subst hb; subst hc; subst hd; subst he; subst hf2; subst hrest
              unfold render_frac three_digits
              simp only [List.cons_append, List.nil_append]
              rw [show (n3 * 1000 + n6) / 1000 = n3 by omega,
                show (n3 * 1000 + n6) % 1000 = n6 by omega]
            · cases h
          · split at h
            · next tz2 heqtz =>
              obtain ⟨heq, rfl⟩ : FracSpec.milli n3 = fr ∧ tz2 = tz := by
                cases h
                exact ⟨rfl, rfl⟩
              subst heq
              have hrest := parse_tz_some heqtz
              subst ha; subst hb; subst hc
              unfold render_frac three_digits
              simp only [List.cons_append, List.nil_append]
              rw [hrest]
            · cases h
        · split at h
          · next tz2 heqtz =>
            obtain ⟨heq, rfl⟩ : FracSpec.milli n3 = fr ∧ tz2 = tz := by
              cases h
              exact ⟨rfl, rfl⟩
            subst heq
            have hrest := parse_tz_some heqtz
            subst ha; subst hb; subst hc; subst hrest
            unfold render_frac three_digits
            simp only [List.cons_append, List.nil_append]
          · cases h
    · next hdot =>
      obtain ⟨rfl, hl⟩ := no_frac_path_some h
      rw [hl]
      rfl
  · next =>
    obtain ⟨rfl, hl⟩ := no_frac_path_some h
    rw [hl]
    rfl

theorem days_in_month_le (y m : Nat) : days_in_month y m ≤ 31 := by
  unfold days_in_month
  split
  · split <;> omega
  · omega
  · omega
  · omega
  · omega
  · omega

theorem fields_valid_bounds {f : TsFields} (h : fields_valid f = true) :
    f.year < 10000 ∧ f.month < 100 ∧ f.day < 100 ∧ f.hour < 100 ∧
      f.minute < 100 ∧ f.second < 100 ∧ frac_ok f.frac = true ∧ tz_ok f.tz = true := by
  unfold fields_valid at h
  simp only [Bool.and_eq_true, decide_eq_true_eq] at h
  obtain ⟨⟨⟨⟨h1, h2⟩, h3⟩, h4⟩, h5⟩ := h
  have hdm := days_in_month_le f.year f.month
  exact ⟨by omega, by omega, by omega, by omega, by omega, by omega, h4, h5⟩

theorem parse_fields_round (f : TsFields) (hv : fields_valid f = true) :
    parse_fields (render_iso f) = some f := by
  obtain ⟨hy, hmo, hd, hh, hmi, hs, hfr, htz⟩ := fields_valid_bounds hv
  unfold render_iso four_digits two_digits
  simp only [List.cons_append, List.nil_append, parse_fields, if_true, and_self, and_true,
    true_and]
  rw [parse4_round f.year hy, parse2_round f.month hmo, parse2_round f.day hd,
    parse2_round f.hour hh, parse2_round f.minute hmi, parse2_round f.second hs,
    parse_frac_tz_round f.frac f.tz hfr htz]

theorem parse_fields_some {l : List Char} {f : TsFields} (h : parse_fields l = some f) :
    l = render_iso f := by
  unfold parse_fields at h
  split at h
  · next y1 y2 y3 y4 sep1 m1 m2 sep2 d1 d2 sepT h1 h2 col1 n1 n2 col2 s1 s2 rest =>
    split at h
    · next hsep =>
      obtain ⟨rfl, rfl, rfl, rfl, rfl⟩ := hsep
      split at h
      · next y mo d hr mi s fr tz heqy heqmo heqd heqh heqmi heqs heqft =>
        cases h
        obtain ⟨hby, hy1, hy2, hy3, hy4⟩ := parse4_some heqy
        obtain ⟨hbmo, hmo1, hmo2⟩ := parse2_some heqmo
        obtain ⟨hbd, hd1, hd2⟩ := parse2_some heqd
        obtain ⟨hbh, hh1, hh2⟩ := parse2_some heqh
        obtain ⟨hbmi, hmi1, hmi2⟩ := parse2_some heqmi
        obtain ⟨hbs, hs1, hs2⟩ := parse2_some heqs
        have hrest := parse_frac_tz_some heqft
        subst hy1; subst hy2; subst hy3; subst hy4
        subst hmo1; subst hmo2; subst hd1; subst hd2
        subst hh1; subst hh2; subst hmi1; subst hmi2
        subst hs1; subst hs2; subst hrest
        unfold render_iso four_digits two_digits
        simp only [List.cons_append, List.nil_append]
      · cases h
    · cases h
  · cases h

/-! ## Claim theorems -/

/-- C2: once the stop flag `_stop_iteration` is set, every pending or future
pull call (`__anext__`) terminates the sequence with `StopAsyncIteration`
rather than an error or an item, even with items still queued; the stop path
leaves the state unchanged, so pulling again after termination immediately
re-terminates the sequence. -/
theorem pull_terminates_after_stop_flag :
    ∀ st : WxWireState, st.stop_iteration = true →
      (anext st).1 = PullOutcome.stopAsyncIteration ∧
      (anext st).2 = st ∧
      (anext (anext st).2).1 = PullOutcome.stopAsyncIteration := by
  intro st h
  simp [anext, h]

/-- Witness for C2 at a state with the stop flag set and an item still
queued. -/
theorem pull_terminates_after_stop_flag_witness :
    (anext ⟨[⟨"s", "p", "i", 0, "t", "c", "a", 0⟩], 10, [], true, false, 0, 0, 0, 0⟩).1 =
        PullOutcome.stopAsyncIteration ∧
      (anext ⟨[⟨"s", "p", "i", 0, "t", "c", "a", 0⟩], 10, [], true, false, 0, 0, 0, 0⟩).2 =
        ⟨[⟨"s", "p", "i", 0, "t", "c", "a", 0⟩], 10, [], true, false, 0, 0, 0, 0⟩ ∧
      (anext (anext ⟨[⟨"s", "p", "i", 0, "t", "c", "a", 0⟩], 10, [], true, false, 0, 0, 0, 0⟩).2).1 =
        PullOutcome.stopAsyncIteration :=
  pull_terminates_after_stop_flag ⟨[⟨"s", "p", "i", 0, "t", "c", "a", 0⟩], 10, [], true, false, 0, 0, 0, 0⟩ rfl

/-- C3: starting from any state whose queue respects the bound, no sequence
of publish operations ever pushes the queue past its configured maximum
size; moreover, when the queue is exactly full a further publish leaves the
queue unchanged (the offered record is dropped) and emits one drop warning.
The embedding of publish is a total function, so a publish on a full queue
returns immediately rather than blocking the producer. -/
theorem queue_bounded_and_drops_when_full :
    ∀ (st : WxWireState) (ms : List NoaaPortMessage) (m : NoaaPortMessage),
      st.message_queue.length ≤ st.queue_maxsize →
      (publish_seq st ms).1.message_queue.length ≤ st.queue_maxsize ∧
      (st.message_queue.length = st.queue_maxsize →
        (publish st m).1.message_queue = st.message_queue ∧
        (publish st m).1.dropped_warnings = st.dropped_warnings + 1) := by
  intro st ms m h
  constructor
  · have hb := publish_seq_bound ms st h
    rw [hb.2] at hb
    exact hb.1
  · intro hfull
    unfold publish; dsimp only
    rw [if_pos (by omega)]
    exact ⟨rfl, rfl⟩

/-- Witness for C3 at a full single-slot queue. -/
theorem queue_bounded_and_drops_when_full_witness :
    (publish_seq ⟨[⟨"s", "p", "i", 0, "t", "c", "a", 0⟩], 1, [], false, false, 0, 0, 0, 0⟩
        [⟨"s2", "p2", "i2", 0, "t", "c", "a", 0⟩]).1.message_queue.length ≤ 1 ∧
      ((⟨[⟨"s", "p", "i", 0, "t", "c", "a", 0⟩], 1, [], false, false, 0, 0, 0, 0⟩ :
          WxWireState).message_queue.length = 1 →
        (publish ⟨[⟨"s", "p", "i", 0, "t", "c", "a", 0⟩], 1, [], false, false, 0, 0, 0, 0⟩
            ⟨"s2", "p2", "i2", 0, "t", "c", "a", 0⟩).1.message_queue =
          [⟨"s", "p", "i", 0, "t", "c", "a", 0⟩] ∧
        (publish ⟨[⟨"s", "p", "i", 0, "t", "c", "a", 0⟩], 1, [], false, false, 0, 0, 0, 0⟩
            ⟨"s2", "p2", "i2", 0, "t", "c", "a", 0⟩).1.dropped_warnings = 0 + 1) :=
  queue_bounded_and_drops_when_full
    ⟨[⟨"s", "p", "i", 0, "t", "c", "a", 0⟩], 1, [], false, false, 0, 0, 0, 0⟩
    [⟨"s2", "p2", "i2", 0, "t", "c", "a", 0⟩] ⟨"s2", "p2", "i2", 0, "t", "c", "a", 0⟩
    (by decide)

/-- C4: `stop()` is idempotent: from a state not yet shutting down, a first
`stop()` performs the three teardown steps (background-service stop,
leave-channel, session disconnect) exactly once each, and a second `stop()`
is a no-op that re-invokes none of them. -/
theorem stop_idempotent_teardown_once :
    ∀ st : WxWireState, st.is_shutting_down = false →
      stop (stop st) = stop st ∧
      (stop (stop st)).bg_services_stops = st.bg_services_stops + 1 ∧
      (stop (stop st)).muc_leaves = st.muc_leaves + 1 ∧
      (stop (stop st)).disconnects = st.disconnects + 1 := by
  intro st h
  have h1 : stop st =
      { st with
        is_shutting_down := true
        bg_services_stops := st.bg_services_stops + 1
        muc_leaves := st.muc_leaves + 1
        disconnects := st.disconnects + 1
        stop_iteration := true } := by
    simp [stop, h]
  rw [h1]
  simp [stop]

/-- Witness for C4 at a fresh client state. -/
theorem stop_idempotent_teardown_once_witness :
    stop (stop ⟨[], 10, [], false, false, 0, 0, 0, 0⟩) =
        stop ⟨[], 10, [], false, false, 0, 0, 0, 0⟩ ∧
      (stop (stop ⟨[], 10, [], false, false, 0, 0, 0, 0⟩)).bg_services_stops = 0 + 1 ∧
      (stop (stop ⟨[], 10, [], false, false, 0, 0, 0, 0⟩)).muc_leaves = 0 + 1 ∧
      (stop (stop ⟨[], 10, [], false, false, 0, 0, 0, 0⟩)).disconnects = 0 + 1 :=
  stop_idempotent_teardown_once ⟨[], 10, [], false, false, 0, 0, 0, 0⟩ rfl

/-- C5: publishing N records with K registered subscribers invokes every
subscriber exactly N times: each subscriber position observes exactly the
published records, in publish order, and each record is fanned out to
subscriber positions in registration order.  The subscriber callbacks are
arbitrary, including one that raises on every call — a raised invocation is
recorded and swallowed without aborting the remaining callbacks or the
publish call. -/
theorem subscribers_receive_all_records_in_order :
    ∀ (st : WxWireState) (ms : List NoaaPortMessage) (i : Nat),
      i < st.subscribers.length →
      events_for i (publish_seq st ms).2 = ms ∧
      (∀ m, (fanout_events st.subscribers m).map (fun e => e.1) =
        List.range st.subscribers.length) := by
  intro st ms i h
  constructor
  · induction ms generalizing st with
    | nil => rfl
    | cons m rest ih =>
      rw [publish_seq_events]
      unfold events_for at ih ⊢
      rw [List.filterMap_append]
      have h2 : i < (publish st m).1.subscribers.length := by
        rw [publish_subscribers]; exact h
      have := events_for_fanout st.subscribers m i h
      unfold events_for at this
      rw [this, ih (publish st m).1 h2]
      rfl
  · intro m
    unfold fanout_events
    rw [List.map_map]
    rw [show ((fun e : Nat × NoaaPortMessage × Bool => e.1) ∘
        (fun j => (j, m, call_subscriber st.subscribers j m))) = id from funext fun j => rfl]
    exact List.map_id _

/-- Witness for C5 with one always-raising subscriber and one record. -/
theorem subscribers_receive_all_records_in_order_witness :
    events_for 0 (publish_seq ⟨[], 10, [fun _ => true], false, false, 0, 0, 0, 0⟩
        [⟨"s", "p", "i", 0, "t", "c", "a", 0⟩]).2 = [⟨"s", "p", "i", 0, "t", "c", "a", 0⟩] ∧
      (∀ m, (fanout_events (⟨[], 10, [fun _ => true], false, false, 0, 0, 0, 0⟩ :
            WxWireState).subscribers m).map (fun e => e.1) =
        List.range (⟨[], 10, [fun _ => true], false, false, 0, 0, 0, 0⟩ :
            WxWireState).subscribers.length) :=
  subscribers_receive_all_records_in_order
    ⟨[], 10, [fun _ => true], false, false, 0, 0, 0, 0⟩
    [⟨"s", "p", "i", 0, "t", "c", "a", 0⟩] 0 (by decide)

/-- C7: the delay computation equals
`max(0, floor((now - issueTime) in seconds))`, is non-negative for every
input, and is exactly 0 whenever the issue time is at or after now. -/
theorem delay_clamped_nonneg :
    ∀ issue now : Int,
      calculate_delay_secs issue now = max 0 ((now - issue).fdiv 1000000) ∧
      0 ≤ calculate_delay_secs issue now ∧
      (now ≤ issue → calculate_delay_secs issue now = 0) := by
  intro issue now
  refine ⟨rfl, le_max_left _ _, fun h => ?_⟩
  have h2 : (now - issue).fdiv 1000000 ≤ 0 := by
    rw [Int.fdiv_eq_ediv _ (by norm_num)]
    omega
  unfold calculate_delay_secs
  exact max_eq_left h2

/-- Witness for C7 at an issue time strictly after now. -/
theorem delay_clamped_nonneg_witness :
    calculate_delay_secs 5000000 3000000 = 0 :=
  (delay_clamped_nonneg 5000000 3000000).2.2 (by decide)

/-- C8: if the session-layer `connect()` raises, `start()` propagates the
exception to its caller; if `connect()` returns a failure indicator without
raising, `start()` returns that indicator without raising. -/
theorem start_propagates_connect_failure :
    ∀ (st : WxWireState) (e : String) (b : Bool),
      start st (ConnectBehavior.raises e) = Except.error e ∧
      start st (ConnectBehavior.returns b) = Except.ok (b, st) := by
  intro st e b
  exact ⟨rfl, rfl⟩

/-- C9: constructing a `WxWireConfig` with a port outside 1..65535 or a
negative history raises `ConfigurationError` eagerly at construction; for
every in-range port and non-negative history the construction succeeds and
stores the validated port and history unchanged. -/
theorem config_validation_eager :
    ∀ (u p srv : String) (port history : Int),
      (((port < 1 ∨ 65535 < port) ∨ history < 0) →
        ∃ e, mk_wx_wire_config u p srv port history = Except.error e) ∧
      ((1 ≤ port ∧ port ≤ 65535 ∧ 0 ≤ history) →
        ∃ cfg, mk_wx_wire_config u p srv port history = Except.ok cfg ∧
          cfg.port = port ∧ cfg.history = history) := by
  intro u p srv port history
  by_cases hp : 1 ≤ port ∧ port ≤ 65535
  · by_cases hh : history < 0
    · have herr : mk_wx_wire_config u p srv port history =
          Except.error ("history".capitalize ++ " must be non-negative, got " ++
            toString history) := by
        simp [mk_wx_wire_config, validate_port, validate_history, hp, hh]
      exact ⟨fun _ => ⟨_, herr⟩, fun h => absurd h.2.2 (by omega)⟩
    · refine ⟨fun h => absurd h (by omega), fun _ => ?_⟩
      refine ⟨⟨if u ≠ "" then u.trim else u, if p ≠ "" then p.trim else p,
        if (if srv ≠ "" then srv.trim else "") = "" then "nwws-oi.weather.gov"
          else (if srv ≠ "" then srv.trim else ""), port, history⟩, ?_, rfl, rfl⟩
      simp [mk_wx_wire_config, validate_port, validate_history, hp, hh]
  · have herr : mk_wx_wire_config u p srv port history =
        Except.error ("port".capitalize ++ " must be between 1 and 65535, got " ++
          toString port) := by
      simp [mk_wx_wire_config, validate_port, hp]
    exact ⟨fun _ => ⟨_, herr⟩, fun h => absurd h (by omega)⟩

/-- Witness for C9: an in-range construction stores port and history
unchanged, applied at port 5222 and history 10. -/
theorem config_validation_eager_witness :
    ∃ cfg, mk_wx_wire_config "user" "pass" "srv" 5222 10 = Except.ok cfg ∧
      cfg.port = 5222 ∧ cfg.history = 10 :=
  (config_validation_eager "user" "pass" "srv" 5222 10).2 (by decide)

/-- C1 (amended): for every raw body text, `_convert_to_noaaport` returns
the string made of one prepended `\x01` byte, the body in which every
single line-feed not already preceded by the two carriage-returns of an
existing triple is replaced by the full carriage-return, carriage-return,
line-feed triple (characterized position by position by `lf_step`), and
one appended `\x03` byte; empty input yields exactly the two control bytes.
The function is total over arbitrary (empty, binary, very large) input, so
it never raises.  Note the amendment: when the raw text itself starts with
`\x01` (or ends with `\x03`) the output carries that byte in addition to
the single prepended/appended marker, so the output need not begin (end)
with exactly one marker byte. -/
theorem noaaport_conversion_format :
    ∀ text : List Char,
      convert_to_noaaport text = '\x01' :: (lf_spec text ++ ['\x03']) ∧
      convert_to_noaaport [] = ['\x01', '\x03'] := by
  intro text
  constructor
  · have h := noaaport_body_spec text []
    have h2 : (fun i => lf_step ([] ++ text) (List.length ([] : List Char) + i)) =
        lf_step text := by
      funext i
      simp
    rw [h2] at h
    unfold convert_to_noaaport lf_spec
    rw [← h]
    rfl
  · rfl

/-- C6: for every valid ISO-8601 timestamp (0, 3 or 6 fractional digits;
`Z` or an explicit offset), `_parse_issue_timestamp` returns the exact UTC
instant denoted; and every string is either parsed exactly that way (it is
the rendering of some valid timestamp) or yields the current ingestion
time, so every other string — empty, malformed, out-of-range components,
missing designator — returns `now` without raising. -/
theorem timestamp_parsing_exact_or_fallback :
    (∀ (f : TsFields) (now : Int), fields_valid f = true →
      parse_issue_timestamp (render_iso f) now = utc_micros f) ∧
    (∀ (l : List Char) (now : Int),
      parse_issue_timestamp l now = now ∨
      ∃ f, fields_valid f = true ∧ render_iso f = l ∧
        parse_issue_timestamp l now = utc_micros f) := by
  constructor
  · intro f now hv
    unfold parse_issue_timestamp
    rw [parse_fields_round f hv]
    show (if fields_valid f = true then utc_micros f else now) = utc_micros f
    rw [if_pos hv]
  · intro l now
    cases hp : parse_fields l with
    | none =>
      left
      unfold parse_issue_timestamp
      rw [hp]
    | some f =>
      by_cases hv : fields_valid f = true
      · right
        refine ⟨f, hv, (parse_fields_some hp).symm, ?_⟩
        unfold parse_issue_timestamp
        rw [hp]
        show (if fields_valid f = true then utc_micros f else now) = utc_micros f
        rw [if_pos hv]
      · left
        unfold parse_issue_timestamp
        rw [hp]
        show (if fields_valid f = true then utc_micros f else now) = now
        rw [if_neg hv]

/-- Witness for C6 at the timestamp 2023-12-25T15:45:00Z. -/
theorem timestamp_parsing_exact_or_fallback_witness :
    fields_valid ⟨2023, 12, 25, 15, 45, 0, FracSpec.noFrac, TzSpec.zulu⟩ = true ∧
      parse_issue_timestamp
        (render_iso ⟨2023, 12, 25, 15, 45, 0, FracSpec.noFrac, TzSpec.zulu⟩) 7 =
        utc_micros ⟨2023, 12, 25, 15, 45, 0, FracSpec.noFrac, TzSpec.zulu⟩ :=
  ⟨by decide, timestamp_parsing_exact_or_fallback.1
    ⟨2023, 12, 25, 15, 45, 0, FracSpec.noFrac, TzSpec.zulu⟩ 7 (by decide)⟩

/-- C1 counterexample: on the one-byte raw text `\x01` the conversion
returns `\x01\x01\x03`, which does not begin with exactly one `\x01`
byte, refuting the claim as stated. -/
theorem noaaport_double_marker_counterexample :
    ¬ begins_with_exactly_one_soh (convert_to_noaaport ['\x01']) := by
  unfold begins_with_exactly_one_soh
  decide

end NwwsReceiver

